/-
Verification of the SpendWise expense-text parser
(`parse_expense_details` in `spendwise/spend.py`).

The Python function is:

    def parse_expense_details(text):
        words = text.split()
        amount = None
        description = None
        for word in words:
            try:
                amount = float(word)
                break
            except ValueError:
                continue
        if amount:
            description_start = words.index(word) + 1
            description = " ".join(words[description_start:])
        if not amount or not description:
            raise ValueError("could not parse expense details from the text.")
        return description, amount

Modelling notes:
* `text.split()` splits on runs of whitespace and discards empty tokens;
  we model the ASCII whitespace characters Python's `str.split` splits on
  (space, tab, newline, carriage return, vertical tab, form feed, and the
  separator control characters 0x1c-0x1f).  Python additionally treats some
  non-ASCII Unicode characters as whitespace; tokens in this development
  are ASCII, as are all the spec's examples.
* `float(word)` is modelled by `pyFloatOfString`, which follows CPython's
  grammar for `float()` on a whitespace-free string: an optional sign,
  then either the case-insensitive special words `inf`/`infinity`/`nan`,
  or a decimal mantissa (digits with single underscores allowed between
  digits, an optional decimal point) with an optional `e`/`E` exponent.
  The numeric value is kept as an exact rational (`PyNum.finite`), with
  `PyNum.inf`/`PyNum.nan` for the non-finite results; we do not model
  IEEE-754 rounding of the decimal literal, nor CPython's acceptance of
  non-ASCII Unicode digits.
* Python truthiness (`if amount:`) is `pyTruthy`: `None` corresponds to
  `findAmount` returning `none`; a float is falsy exactly when it is zero
  (NaN and the infinities are truthy).
* The function raises a single `ValueError` (one message for both failure
  causes).  The embedding returns `Except ParseErr _` where the two
  `ParseErr` tags record which disjunct of the source's short-circuit
  check `not amount or not description` fired: `noAmountFound` when the
  amount is `None` or falsy, `emptyDescription` when the amount is truthy
  but the joined description is the empty string.  `ParseErr.message`
  maps both tags to the one `ValueError` message of the source.
* `words.index(word)` (first occurrence of the break token's string) is
  modelled by `pyIndex`; when the loop did not break, the Python
  variable `word` is only read under the `if amount:` guard, which the
  `match` on `findAmount` reflects.
-/
import Mathlib

attribute [local semireducible] Rat.add Rat.mul Rat.inv Rat.sub

namespace SpendWise

/-- ASCII whitespace characters that Python's `str.split()` splits on. -/
def pyIsSpace (c : Char) : Bool :=
  c = ' ' || c = '\t' || c = '\n' || c = '\r' || c = '\x0b' || c = '\x0c' ||
    (0x1c ≤ c.toNat && c.toNat ≤ 0x1f)

/-- Accumulator-based splitter: `acc` holds the current token reversed. -/
def splitWsAux : List Char → List Char → List (List Char)
  | [], acc => if acc = [] then [] else [acc.reverse]
  | c :: cs, acc =>
    if pyIsSpace c then
      if acc = [] then splitWsAux cs [] else acc.reverse :: splitWsAux cs []
    else
      splitWsAux cs (c :: acc)

/-- Model of Python `text.split()`: whitespace-delimited tokens, empties dropped. -/
def pySplit (s : String) : List String :=
  (splitWsAux s.data []).map String.mk

/-- Result of Python `float(...)`: an exact rational, an infinity, or NaN. -/
inductive PyNum where
  | finite (q : ℚ)
  | inf (neg : Bool)
  | nan
deriving DecidableEq, Repr

/-- Python truthiness of a float: zero is falsy; NaN and infinities are truthy. -/
def pyTruthy : PyNum → Bool
  | .finite q => if q = 0 then false else true
  | .inf _ => true
  | .nan => true

/-- Whether a `PyNum` is a finite value (not an infinity, not NaN). -/
def PyNum.isFinite : PyNum → Bool
  | .finite _ => true
  | .inf _ => false
  | .nan => false

/-- Consume a maximal run of decimal digits in which single underscores may
appear between digits (CPython's PEP-515 rule for `float()` input); returns
the accumulated value, the number of digits consumed, and the rest. -/
def digitsU : List Char → Nat → Nat → Nat × Nat × List Char
  | [], v, cnt => (v, cnt, [])
  | x :: xs, v, cnt =>
    if x.isDigit then digitsU xs (10 * v + (x.toNat - 48)) (cnt + 1)
    else if x = '_' ∧ cnt ≠ 0 then
      match xs with
      | y :: ys =>
        if y.isDigit then digitsU ys (10 * v + (y.toNat - 48)) (cnt + 1)
        else (v, cnt, x :: xs)
      | [] => (v, cnt, x :: xs)
    else (v, cnt, x :: xs)

/-- Consume a maximal run of decimal digits with no underscores allowed
(the "standard decimal parsing" reading): value, digit count, rest. -/
def digitRun : List Char → Nat → Nat → Nat × Nat × List Char
  | [], v, cnt => (v, cnt, [])
  | x :: xs, v, cnt =>
    if x.isDigit then digitRun xs (10 * v + (x.toNat - 48)) (cnt + 1)
    else (v, cnt, x :: xs)

/-- Optional leading sign: returns (isNegative, rest). -/
def pySign : List Char → Bool × List Char
  | [] => (false, [])
  | c :: cs =>
    if c = '+' then (false, cs)
    else if c = '-' then (true, cs)
    else (false, c :: cs)

/-- Exact value of a decimal mantissa: integer part `ip`, fractional digits
with value `fp` and digit count `fc`. -/
def mantVal (ip fp fc : Nat) : ℚ :=
  (ip : ℚ) + (fp : ℚ) / (10 : ℚ) ^ fc

/-- Scale a mantissa by the signed decimal exponent. -/
def scale10 (m : ℚ) (eneg : Bool) (ev : Nat) : ℚ :=
  if eneg then m / (10 : ℚ) ^ ev else m * (10 : ℚ) ^ ev

/-- Apply the leading sign. -/
def applySign (neg : Bool) (q : ℚ) : ℚ :=
  if neg then -q else q

/-- Model of CPython `float()` on a whitespace-free character list. -/
def pyFloatOfChars (l : List Char) : Option PyNum :=
  let sg := pySign l
  let low := sg.2.map Char.toLower
  if low = ['i', 'n', 'f'] || low = ['i', 'n', 'f', 'i', 'n', 'i', 't', 'y'] then
    some (PyNum.inf sg.1)
  else if low = ['n', 'a', 'n'] then
    some PyNum.nan
  else
    let d1 := digitsU sg.2 0 0
    let fr :=
      if d1.2.2.head? = some '.' then digitsU d1.2.2.tail 0 0 else (0, 0, d1.2.2)
    if d1.2.1 + fr.2.1 = 0 then none
    else if fr.2.2 = [] then
      some (PyNum.finite (applySign sg.1 (mantVal d1.1 fr.1 fr.2.1)))
    else if fr.2.2.head? = some 'e' ∨ fr.2.2.head? = some 'E' then
      let es := pySign fr.2.2.tail
      let d3 := digitsU es.2 0 0
      if d3.2.1 ≠ 0 ∧ d3.2.2 = [] then
        some (PyNum.finite (applySign sg.1 (scale10 (mantVal d1.1 fr.1 fr.2.1) es.1 d3.1)))
      else none
    else none

/-- Model of Python `float(word)` on a token. -/
def pyFloatOfString (s : String) : Option PyNum :=
  pyFloatOfChars s.data

/-- Decimal grammar stated by the spec's words ("standard decimal parsing,
leading plus or minus and decimal point accepted, no currency symbols or
thousands separators accepted"): an optional sign, then decimal digits with
an optional decimal point, at least one digit, and nothing else.  Declared
only to compare the spec's acceptance rule with the source's
(`pyFloatOfString`); the source is the authority. -/
def specStandardDecimal (s : String) : Option ℚ :=
  let sg := pySign s.data
  let d1 := digitRun sg.2 0 0
  let fr :=
    if d1.2.2.head? = some '.' then digitRun d1.2.2.tail 0 0 else (0, 0, d1.2.2)
  if d1.2.1 + fr.2.1 = 0 then none
  else if fr.2.2 = [] then some (applySign sg.1 (mantVal d1.1 fr.1 fr.2.1))
  else none

/-- Characters that can occur in a token `pyFloatOfChars` accepts. -/
def pyAllowed (x : Char) : Bool :=
  x.isDigit || x = '_' || x = '.' || x = '+' || x = '-' ||
    x.toLower = 'i' || x.toLower = 'n' || x.toLower = 'f' || x.toLower = 'a' ||
    x.toLower = 't' || x.toLower = 'y' || x.toLower = 'e'

/-- The source's scan loop: the first token `float()` accepts, together with
its parsed value; `none` when the loop finishes without a break (`amount`
stays `None`). -/
def findAmount : List String → Option (String × PyNum)
  | [] => none
  | w :: ws =>
    match pyFloatOfString w with
    | some v => some (w, v)
    | none => findAmount ws

/-- Model of `" ".join(ws)`. -/
def joinSp : List String → String
  | [] => ""
  | [w] => w
  | w :: ws => w ++ " " ++ joinSp ws

/-- Model of Python `words.index(word)`: index of the first occurrence.
(`list.index` raises when the element is absent; the source only calls it
with the token the scan loop broke at, which is a member.) -/
def pyIndex (ws : List String) (w : String) : Nat :=
  match ws with
  | [] => 0
  | x :: t => if x = w then 0 else pyIndex t w + 1

/-- Which disjunct of the source's `not amount or not description` check
fired.  Both tags surface as the same `ValueError` in the source
(`ParseErr.message`). -/
inductive ParseErr where
  | noAmountFound
  | emptyDescription
deriving DecidableEq, Repr

/-- The single `ValueError` message the source raises for either failure. -/
def ParseErr.message : ParseErr → String :=
  fun _ => "could not parse expense details from the text."

/-- Shallow embedding of `parse_expense_details` from `spendwise/spend.py`. -/
def parse_expense_details (text : String) : Except ParseErr (String × PyNum) :=
  let words := pySplit text
  match findAmount words with
  | none => Except.error ParseErr.noAmountFound
  | some (w, amount) =>
    if pyTruthy amount then
      let descStart := pyIndex words w + 1
      let description := joinSp (words.drop descStart)
      if description = "" then Except.error ParseErr.emptyDescription
      else Except.ok (description, amount)
    else Except.error ParseErr.noAmountFound

deriving instance DecidableEq for Except

/-! ### Token-level facts about `pySplit` -/

theorem splitWsAux_ne_nil (cs : List Char) :
    ∀ (acc t : List Char), t ∈ splitWsAux cs acc → t ≠ [] := by
  induction cs with
  | nil =>
    intro acc t ht
    simp only [splitWsAux] at ht
    split at ht
    · simp at ht
    · rename_i hacc
      simp only [List.mem_singleton] at ht
      subst ht
      simpa using hacc
  | cons c cs ih =>
    intro acc t ht
    simp only [splitWsAux] at ht
    split at ht
    · split at ht
      · exact ih [] t ht
      · rename_i hacc
        rcases List.mem_cons.mp ht with h | h
        · subst h; simpa using hacc
        · exact ih [] t h
    · exact ih (c :: acc) t ht

theorem splitWsAux_no_space (cs : List Char) :
    ∀ (acc : List Char), (∀ c ∈ acc, pyIsSpace c = false) →
      ∀ t ∈ splitWsAux cs acc, ∀ c ∈ t, pyIsSpace c = false := by
  induction cs with
  | nil =>
    intro acc hacc t ht c hc
    simp only [splitWsAux] at ht
    split at ht
    · simp at ht
    · simp only [List.mem_singleton] at ht
      subst ht
      exact hacc c (List.mem_reverse.mp hc)
  | cons x cs ih =>
    intro acc hacc t ht c hc
    simp only [splitWsAux] at ht
    split at ht
    · split at ht
      · exact ih [] (by simp) t ht c hc
      · rcases List.mem_cons.mp ht with h | h
        · subst h; exact hacc c (List.mem_reverse.mp hc)
        · exact ih [] (by simp) t h c hc
    · rename_i hx
      refine ih (x :: acc) ?_ t ht c hc
      intro d hd
      rcases List.mem_cons.mp hd with h | h
      · subst h; simpa using hx
      · exact hacc d h

theorem pySplit_token_ne_empty (s w : String) (hw : w ∈ pySplit s) : w.data ≠ [] := by
  rcases List.mem_map.mp hw with ⟨t, ht, rfl⟩
  exact splitWsAux_ne_nil s.data [] t ht

theorem pySplit_token_no_space (s w : String) (hw : w ∈ pySplit s) :
    ∀ c ∈ w.data, pyIsSpace c = false := by
  rcases List.mem_map.mp hw with ⟨t, ht, rfl⟩
  exact splitWsAux_no_space s.data [] (by simp) t ht

/-! ### The scan loop and `pyIndex` -/

theorem findAmount_eq_none (ws : List String)
    (h : ∀ w ∈ ws, pyFloatOfString w = none) : findAmount ws = none := by
  induction ws with
  | nil => rfl
  | cons w t ih =>
    have hw := h w (List.mem_cons_self w t)
    simp only [findAmount, hw]
    exact ih fun x hx => h x (List.mem_cons_of_mem w hx)

theorem findAmount_first (ws : List String) (i : Nat) (hi : i < ws.length) (v : PyNum)
    (hget : pyFloatOfString ws[i] = some v)
    (hbefore : ∀ w ∈ ws.take i, pyFloatOfString w = none) :
    findAmount ws = some (ws[i], v) := by
  induction ws generalizing i with
  | nil => exact absurd hi (by simp)
  | cons w t ih =>
    cases i with
    | zero =>
      simp only [List.getElem_cons_zero] at hget ⊢
      simp [findAmount, hget]
    | succ n =>
      have hw : pyFloatOfString w = none := by
        refine hbefore w ?_
        simp [List.take_succ_cons]
      simp only [findAmount, hw, List.getElem_cons_succ]
      refine ih n (by simpa using hi) (by simpa using hget) ?_
      intro x hx
      exact hbefore x (by simp [List.take_succ_cons, hx])

theorem findAmount_mem (ws : List String) (w : String) (v : PyNum)
    (h : findAmount ws = some (w, v)) : w ∈ ws ∧ pyFloatOfString w = some v := by
  induction ws with
  | nil => simp [findAmount] at h
  | cons x t ih =>
    simp only [findAmount] at h
    cases hx : pyFloatOfString x with
    | some u =>
      rw [hx] at h
      simp only [Option.some.injEq, Prod.mk.injEq] at h
      obtain ⟨rfl, rfl⟩ := h
      exact ⟨List.mem_cons_self x t, hx⟩
    | none =>
      rw [hx] at h
      obtain ⟨hm, hv⟩ := ih h
      exact ⟨List.mem_cons_of_mem x hm, hv⟩

theorem pyIndex_first (ws : List String) (i : Nat) (hi : i < ws.length) (v : PyNum)
    (hget : pyFloatOfString ws[i] = some v)
    (hbefore : ∀ w ∈ ws.take i, pyFloatOfString w = none) :
    pyIndex ws ws[i] = i := by
  induction ws generalizing i with
  | nil => exact absurd hi (by simp)
  | cons w t ih =>
    cases i with
    | zero => simp [pyIndex]
    | succ n =>
      have hw : pyFloatOfString w = none := by
        refine hbefore w ?_
        simp [List.take_succ_cons]
      have hne : ¬ w = (w :: t)[n + 1] := by
        intro he
        rw [List.getElem_cons_succ] at he hget
        rw [← he, hw] at hget
        exact Option.noConfusion hget
      simp only [pyIndex, List.getElem_cons_succ] at hne ⊢
      rw [if_neg hne]
      have := ih n (by simpa using hi) (by simpa using hget) (fun x hx =>
        hbefore x (by simp [List.take_succ_cons, hx]))
      omega

/-! ### Facts about `joinSp` -/

theorem joinSp_ne_empty (l : List String) (hne : l ≠ [])
    (htok : ∀ w ∈ l, w.data ≠ []) : joinSp l ≠ "" := by
  match l with
  | [w] =>
    intro h
    exact htok w (List.mem_singleton.mpr rfl) (by simpa [joinSp, String.ext_iff] using h)
  | w :: x :: r =>
    intro h
    have hd := congrArg String.data h
    simp only [joinSp, String.data_append] at hd
    rcases List.append_eq_nil.mp (List.append_eq_nil.mp hd).1 with ⟨-, hsp⟩
    exact List.noConfusion hsp

theorem joinSp_head (w : String) (l : List String) (c : Char) (cs : List Char)
    (hw : w.data = c :: cs) : (joinSp (w :: l)).data.head? = some c := by
  match l with
  | [] => simp [joinSp, hw]
  | x :: r => simp [joinSp, String.data_append, hw]

theorem joinSp_last (l : List String) (hne : l ≠ []) (htok : ∀ w ∈ l, w.data ≠ []) :
    ∃ w ∈ l, (joinSp l).data.getLast? = w.data.getLast? := by
  induction l with
  | nil => exact absurd rfl hne
  | cons w t ih =>
    cases t with
    | nil => exact ⟨w, List.mem_singleton.mpr rfl, by simp [joinSp]⟩
    | cons x r =>
      obtain ⟨u, hu, heq⟩ := ih (by simp) (fun y hy => htok y (List.mem_cons_of_mem w hy))
      refine ⟨u, List.mem_cons_of_mem w hu, ?_⟩
      have hj : (joinSp (x :: r)).data ≠ [] := by
        intro h0
        refine joinSp_ne_empty (x :: r) (by simp)
          (fun y hy => htok y (List.mem_cons_of_mem w hy)) ?_
        exact String.ext h0
      simp only [joinSp, String.data_append]
      rw [List.getLast?_append, List.getLast?_append]
      have : (joinSp (x :: r)).data.getLast?.isSome := by
        rw [List.getLast?_isSome]; exact hj
      cases hcase : (joinSp (x :: r)).data.getLast? with
      | none => rw [hcase] at this; simp at this
      | some z => simp [hcase, ← heq]

/-! ### Shape of `parse_expense_details` -/

theorem parse_eq_of_findAmount_none (text : String)
    (h : findAmount (pySplit text) = none) :
    parse_expense_details text = Except.error ParseErr.noAmountFound := by
  simp only [parse_expense_details, h]

theorem parse_eq_of_findAmount_some (text w : String) (v : PyNum)
    (h : findAmount (pySplit text) = some (w, v)) :
    parse_expense_details text =
      if pyTruthy v then
        if joinSp ((pySplit text).drop (pyIndex (pySplit text) w + 1)) = "" then
          Except.error ParseErr.emptyDescription
        else
          Except.ok (joinSp ((pySplit text).drop (pyIndex (pySplit text) w + 1)), v)
      else Except.error ParseErr.noAmountFound := by
  simp only [parse_expense_details, h]

/-! ### Claim theorems -/

/-- C1: on any input whose first `float()`-accepted token (strict
left-to-right scan: every earlier token is rejected) has a truthy value and
is followed by at least one further token, `parse_expense_details` succeeds
with that token's value as the amount and the tokens strictly after it,
joined with single spaces, as the description. -/
theorem c1_first_numeric_token_success (text : String) (i : Nat) (v : PyNum)
    (hi : i < (pySplit text).length)
    (hnum : pyFloatOfString (pySplit text)[i] = some v)
    (hfirst : ∀ w ∈ (pySplit text).take i, pyFloatOfString w = none)
    (htruthy : pyTruthy v = true)
    (hmore : i + 1 < (pySplit text).length) :
    parse_expense_details text =
      Except.ok (joinSp ((pySplit text).drop (i + 1)), v) := by
  have hfa := findAmount_first (pySplit text) i hi v hnum hfirst
  have hidx := pyIndex_first (pySplit text) i hi v hnum hfirst
  rw [parse_eq_of_findAmount_some text _ v hfa, hidx, if_pos htruthy, if_neg]
  have hdrop : (pySplit text).drop (i + 1) ≠ [] := by
    intro h0
    rw [List.drop_eq_nil_iff] at h0
    omega
  exact joinSp_ne_empty _ hdrop
    (fun w hw => pySplit_token_ne_empty text w (List.drop_subset _ _ hw))

/-- C1 witness: `parse("coffee 4.50 at the cafe")` returns description
"at the cafe" and amount 4.50. -/
theorem c1_witness :
    parse_expense_details "coffee 4.50 at the cafe" =
      Except.ok ("at the cafe", PyNum.finite (9 / 2)) := by
  have h := c1_first_numeric_token_success "coffee 4.50 at the cafe" 1
    (PyNum.finite (9 / 2)) (by decide) (by decide) (by decide) (by decide) (by decide)
  rw [h]
  rfl

/-- C2: when no whitespace-delimited token of the input is accepted by
`float()`, `parse_expense_details` fails with the no-amount error. -/
theorem c2_no_numeric_token_fails (text : String)
    (h : ∀ w ∈ pySplit text, pyFloatOfString w = none) :
    parse_expense_details text = Except.error ParseErr.noAmountFound :=
  parse_eq_of_findAmount_none text (findAmount_eq_none (pySplit text) h)

/-- C2 witness: `parse("")` fails with the no-amount error. -/
theorem c2_witness :
    parse_expense_details "" = Except.error ParseErr.noAmountFound :=
  c2_no_numeric_token_fails "" (by decide)

/-- C3 counterexample: for input "0" the first numeric token is the last
token, yet the failure is the no-amount (truthiness) condition, not the
empty-description one. -/
theorem c3_counterexample :
    pySplit "0" = ["0"] ∧ pyFloatOfString "0" = some (PyNum.finite 0) ∧
      parse_expense_details "0" = Except.error ParseErr.noAmountFound ∧
      parse_expense_details "0" ≠ Except.error ParseErr.emptyDescription := by
  exact ⟨by decide, by decide, by decide, by decide⟩

/-- C3 (amended): when the first `float()`-accepted token is the last token
AND its value is truthy (nonzero), `parse_expense_details` fails with the
empty-description error; a zero-valued final numeric token instead fails
the truthiness check. -/
theorem c3_amended_last_token_empty_description (text : String) (i : Nat) (v : PyNum)
    (hi : i < (pySplit text).length)
    (hnum : pyFloatOfString (pySplit text)[i] = some v)
    (hfirst : ∀ w ∈ (pySplit text).take i, pyFloatOfString w = none)
    (htruthy : pyTruthy v = true)
    (hlast : i + 1 = (pySplit text).length) :
    parse_expense_details text = Except.error ParseErr.emptyDescription := by
  have hfa := findAmount_first (pySplit text) i hi v hnum hfirst
  have hidx := pyIndex_first (pySplit text) i hi v hnum hfirst
  rw [parse_eq_of_findAmount_some text _ v hfa, hidx, if_pos htruthy, if_pos]
  have hdrop : (pySplit text).drop (i + 1) = [] := by
    rw [hlast]
    exact List.drop_length _
  rw [hdrop]
  rfl

/-- C3 witness: `parse("12.99")` fails with the empty-description error. -/
theorem c3_witness :
    parse_expense_details "12.99" = Except.error ParseErr.emptyDescription :=
  c3_amended_last_token_empty_description "12.99" 0 (PyNum.finite (1299 / 100))
    (by decide) (by decide) (by decide) (by decide) (by decide)

/-- C4: when the first `float()`-accepted token parses to the numeric value
zero, the truthiness check `if amount:` treats it as no amount and
`parse_expense_details` fails with the no-amount error. -/
theorem c4_zero_amount_rejected (text : String) (i : Nat)
    (hi : i < (pySplit text).length)
    (hnum : pyFloatOfString (pySplit text)[i] = some (PyNum.finite 0))
    (hfirst : ∀ w ∈ (pySplit text).take i, pyFloatOfString w = none) :
    parse_expense_details text = Except.error ParseErr.noAmountFound := by
  have hfa := findAmount_first (pySplit text) i hi (PyNum.finite 0) hnum hfirst
  rw [parse_eq_of_findAmount_some text _ (PyNum.finite 0) hfa, if_neg]
  simp [pyTruthy]

/-- C4 witness: `parse("0 free sample")` fails even though a numeric token
was found. -/
theorem c4_witness :
    parse_expense_details "0 free sample" = Except.error ParseErr.noAmountFound :=
  c4_zero_amount_rejected "0 free sample" 0 (by decide) (by decide) (by decide)

/-- C5 counterexample: `parse("inf lunch")` succeeds and the returned
amount is not finite (`float("inf")` is accepted by the source). -/
theorem c5_counterexample :
    parse_expense_details "inf lunch" = Except.ok ("lunch", PyNum.inf false) ∧
      (PyNum.inf false).isFinite = false := by
  exact ⟨by decide, by decide⟩

/-- C5 (amended): on success the description is non-empty with no leading
or trailing whitespace, and the amount is the `float()`-parsed value of one
of the input's tokens — but that value may be infinite or NaN, since
`float()` accepts the special words inf/infinity/nan. -/
theorem c5_amended_success_shape (text d : String) (a : PyNum)
    (h : parse_expense_details text = Except.ok (d, a)) :
    d ≠ "" ∧
      (∀ c, d.data.head? = some c → pyIsSpace c = false) ∧
      (∀ c, d.data.getLast? = some c → pyIsSpace c = false) ∧
      ∃ w ∈ pySplit text, pyFloatOfString w = some a := by
  cases hfa : findAmount (pySplit text) with
  | none =>
    rw [parse_eq_of_findAmount_none text hfa] at h
    exact Except.noConfusion h
  | some p =>
    obtain ⟨w, v⟩ := p
    rw [parse_eq_of_findAmount_some text w v hfa] at h
    by_cases htr : pyTruthy v = true
    · rw [if_pos htr] at h
      split at h
      · exact Except.noConfusion h
      · rename_i hdesc
        simp only [Except.ok.injEq, Prod.mk.injEq] at h
        obtain ⟨hd, rfl⟩ := h
        subst hd
        obtain ⟨hmemw, hvw⟩ := findAmount_mem (pySplit text) w v hfa
        have hLsub : ∀ u ∈ (pySplit text).drop (pyIndex (pySplit text) w + 1),
            u ∈ pySplit text := fun u hu => List.drop_subset _ _ hu
        cases hL2 : (pySplit text).drop (pyIndex (pySplit text) w + 1) with
        | nil => rw [hL2] at hdesc; exact absurd rfl hdesc
        | cons w0 rest =>
          rw [hL2] at hdesc hLsub
          have hw0mem : w0 ∈ pySplit text := hLsub w0 (List.mem_cons_self _ _)
          have hw0ne : w0.data ≠ [] := pySplit_token_ne_empty text w0 hw0mem
          cases hdat : w0.data with
          | nil => exact absurd hdat hw0ne
          | cons c0 cs0 =>
            refine ⟨hdesc, ?_, ?_, w, hmemw, hvw⟩
            · intro c hc
              rw [joinSp_head w0 rest c0 cs0 hdat] at hc
              obtain rfl : c0 = c := Option.some.inj hc
              exact pySplit_token_no_space text w0 hw0mem c0
                (by rw [hdat]; exact List.mem_cons_self _ _)
            · intro c hc
              obtain ⟨u, hu, hequ⟩ := joinSp_last (w0 :: rest) (by simp)
                (fun y hy => pySplit_token_ne_empty text y (hLsub y hy))
              rw [hequ] at hc
              exact pySplit_token_no_space text u (hLsub u hu) c
                (List.mem_of_getLast?_eq_some hc)
    · rw [if_neg htr] at h
      exact Except.noConfusion h

/-- C5 witness: the successful parse of "coffee 4.50 at the cafe" has a
non-empty trimmed description and a token-derived amount. -/
theorem c5_amended_witness :
    "at the cafe" ≠ "" ∧
      (∀ c, "at the cafe".data.head? = some c → pyIsSpace c = false) ∧
      (∀ c, "at the cafe".data.getLast? = some c → pyIsSpace c = false) ∧
      ∃ w ∈ pySplit "coffee 4.50 at the cafe",
        pyFloatOfString w = some (PyNum.finite (9 / 2)) :=
  c5_amended_success_shape "coffee 4.50 at the cafe" "at the cafe"
    (PyNum.finite (9 / 2)) (by decide)

/-- C6 counterexample: `parse("-5 lunch")` succeeds with the negative
amount -5, so the amount is not always nonnegative. -/
theorem c6_counterexample :
    parse_expense_details "-5 lunch" = Except.ok ("lunch", PyNum.finite (-5)) ∧
      (-5 : ℚ) < 0 := by
  exact ⟨by decide, by decide⟩

/-- C6 (amended): on success the amount is truthy (nonzero when finite) but
may be negative. -/
theorem c6_amended_truthy_amount (text d : String) (a : PyNum)
    (h : parse_expense_details text = Except.ok (d, a)) :
    pyTruthy a = true ∧ a ≠ PyNum.finite 0 := by
  cases hfa : findAmount (pySplit text) with
  | none =>
    rw [parse_eq_of_findAmount_none text hfa] at h
    exact Except.noConfusion h
  | some p =>
    obtain ⟨w, v⟩ := p
    rw [parse_eq_of_findAmount_some text w v hfa] at h
    by_cases htr : pyTruthy v = true
    · rw [if_pos htr] at h
      split at h
      · exact Except.noConfusion h
      · simp only [Except.ok.injEq, Prod.mk.injEq] at h
        obtain ⟨-, rfl⟩ := h
        refine ⟨htr, ?_⟩
        intro hc
        rw [hc] at htr
        exact absurd htr (by decide)
    · rw [if_neg htr] at h
      exact Except.noConfusion h

/-- C6 witness: the amount returned for "coffee 4.50 at the cafe" is truthy
and nonzero. -/
theorem c6_amended_witness :
    pyTruthy (PyNum.finite (9 / 2)) = true ∧ PyNum.finite (9 / 2) ≠ PyNum.finite 0 :=
  c6_amended_truthy_amount "coffee 4.50 at the cafe" "at the cafe"
    (PyNum.finite (9 / 2)) (by decide)

/-- C7: on every input string, `parse_expense_details` either returns a
result or fails with an error that carries the single recoverable
`ValueError` message of the source; it has no other outcome (in particular
the unbound loop variable of the source is only read under the `if amount:`
guard, which requires the loop to have bound it). -/
theorem c7_total_single_error (text : String) :
    (∃ d a, parse_expense_details text = Except.ok (d, a)) ∨
      ∃ e, parse_expense_details text = Except.error e ∧
        ParseErr.message e = "could not parse expense details from the text." := by
  cases h : parse_expense_details text with
  | error e => exact Or.inr ⟨e, rfl, rfl⟩
  | ok p =>
    obtain ⟨d, a⟩ := p
    exact Or.inl ⟨d, a, rfl⟩

/-- C9: `parse_expense_details` is a pure function of its input string:
equal inputs give identical results. -/
theorem c9_deterministic (t1 t2 : String) (h : t1 = t2) :
    parse_expense_details t1 = parse_expense_details t2 := by
  rw [h]

/-- C9 witness: two calls on the same string agree. -/
theorem c9_witness :
    parse_expense_details "coffee 4.50 at the cafe" =
      parse_expense_details "coffee 4.50 at the cafe" :=
  c9_deterministic "coffee 4.50 at the cafe" "coffee 4.50 at the cafe" rfl

/-- C10: the scan commits to the first `float()`-accepted token: if its
value is falsy (zero), `parse_expense_details` fails with the no-amount
error even when a later token is a valid truthy number. -/
theorem c10_commits_to_first_numeric (text : String) (i j : Nat) (v vj : PyNum)
    (hi : i < (pySplit text).length)
    (hnum : pyFloatOfString (pySplit text)[i] = some v)
    (hfirst : ∀ w ∈ (pySplit text).take i, pyFloatOfString w = none)
    (hfalsy : pyTruthy v = false)
    (hj : j < (pySplit text).length) (_hij : i < j)
    (_hlater : pyFloatOfString (pySplit text)[j] = some vj)
    (_hvj : pyTruthy vj = true) :
    parse_expense_details text = Except.error ParseErr.noAmountFound := by
  have hfa := findAmount_first (pySplit text) i hi v hnum hfirst
  rw [parse_eq_of_findAmount_some text _ v hfa, if_neg]
  rw [hfalsy]
  exact Bool.false_ne_true

/-- C10 witness: `parse("0 5 lunch")` fails although "5" is a valid nonzero
number after the zero. -/
theorem c10_witness :
    parse_expense_details "0 5 lunch" = Except.error ParseErr.noAmountFound :=
  c10_commits_to_first_numeric "0 5 lunch" 0 1 (PyNum.finite 0) (PyNum.finite 5)
    (by decide) (by decide) (by decide) (by decide) (by decide) (by decide)
    (by decide) (by decide)

/-! ### Character-level facts for the acceptance-grammar claim -/

theorem toLower_of_isDigit (c : Char) (h : c.isDigit = true) : c.toLower = c := by
  simp only [Char.isDigit, Bool.and_eq_true, decide_eq_true_eq] at h
  obtain ⟨h1, h2⟩ := h
  unfold Char.toLower
  rw [if_neg]
  rintro ⟨h3, -⟩
  rw [UInt32.le_def] at h2
  have h4 : c.toNat ≤ 57 := by
    have h5 := BitVec.le_def.mp h2
    simpa [Char.toNat, UInt32.toNat] using h5
  omega

theorem head_not_letter (x t : Char) (hx : x.isDigit = true ∨ x = '.')
    (ht : Char.isDigit t = false) (htd : ¬t = '.') (h1 : x.toLower = t) : False := by
  rcases hx with hd | rfl
  · rw [toLower_of_isDigit x hd] at h1
    subst h1
    rw [hd] at ht
    exact Bool.noConfusion ht
  · rw [show Char.toLower '.' = '.' from rfl] at h1
    exact htd h1.symm

theorem pySign_shape (l : List Char) :
    l = (pySign l).2 ∨ l = '+' :: (pySign l).2 ∨ l = '-' :: (pySign l).2 := by
  cases l with
  | nil => exact Or.inl rfl
  | cons c cs =>
    simp only [pySign]
    by_cases h1 : c = '+'
    · subst h1; rw [if_pos rfl]; exact Or.inr (Or.inl rfl)
    · rw [if_neg h1]
      by_cases h2 : c = '-'
      · subst h2; rw [if_pos rfl]; exact Or.inr (Or.inr rfl)
      · rw [if_neg h2]; exact Or.inl rfl

theorem digitsU_nil (v cnt : Nat) : digitsU [] v cnt = (v, cnt, []) := rfl

theorem digitsU_cons (x : Char) (xs : List Char) (v cnt : Nat) :
    digitsU (x :: xs) v cnt =
      if x.isDigit then digitsU xs (10 * v + (x.toNat - 48)) (cnt + 1)
      else if x = '_' ∧ cnt ≠ 0 then
        match xs with
        | y :: ys =>
          if y.isDigit then digitsU ys (10 * v + (y.toNat - 48)) (cnt + 1)
          else (v, cnt, x :: xs)
        | [] => (v, cnt, x :: xs)
      else (v, cnt, x :: xs) := by
  rw [digitsU.eq_def]

theorem digitRun_nil (v cnt : Nat) : digitRun [] v cnt = (v, cnt, []) := rfl

theorem digitRun_cons (x : Char) (xs : List Char) (v cnt : Nat) :
    digitRun (x :: xs) v cnt =
      if x.isDigit then digitRun xs (10 * v + (x.toNat - 48)) (cnt + 1)
      else (v, cnt, x :: xs) := by
  rw [digitRun.eq_def]

theorem digitsU_eq_digitRun (l : List Char) : ∀ (v cnt : Nat),
    (∀ cs, (digitRun l v cnt).2.2 ≠ '_' :: cs) → digitsU l v cnt = digitRun l v cnt := by
  induction l with
  | nil => intro v cnt _; rfl
  | cons x xs ih =>
    intro v cnt h
    by_cases hx : x.isDigit = true
    · rw [digitRun_cons, if_pos hx] at h
      rw [digitsU_cons, digitRun_cons, if_pos hx, if_pos hx]
      exact ih _ _ h
    · have hstop : digitRun (x :: xs) v cnt = (v, cnt, x :: xs) := by
        rw [digitRun_cons, if_neg hx]
      rw [hstop] at h
      have hxu : ¬x = '_' := by
        intro he
        exact h xs (by rw [he])
      rw [hstop, digitsU_cons, if_neg hx, if_neg]
      rintro ⟨he, -⟩
      exact hxu he

theorem digitsU_split : ∀ (l : List Char) (v cnt : Nat),
    ∃ pre, l = pre ++ (digitsU l v cnt).2.2 ∧ ∀ x ∈ pre, x.isDigit = true ∨ x = '_'
  | [], v, cnt => ⟨[], by simp [digitsU_nil], by simp⟩
  | x :: xs, v, cnt => by
    by_cases hx : x.isDigit = true
    · obtain ⟨pre, hpre, hall⟩ := digitsU_split xs (10 * v + (x.toNat - 48)) (cnt + 1)
      refine ⟨x :: pre, ?_, ?_⟩
      · rw [digitsU_cons, if_pos hx, List.cons_append, ← hpre]
      · intro y hy
        rcases List.mem_cons.mp hy with rfl | hy
        · exact Or.inl hx
        · exact hall y hy
    · by_cases hu : x = '_' ∧ cnt ≠ 0
      · cases xs with
        | nil =>
          refine ⟨[], ?_, by simp⟩
          rw [digitsU_cons, if_neg hx, if_pos hu]
          rfl
        | cons y ys =>
          by_cases hy : y.isDigit = true
          · obtain ⟨pre, hpre, hall⟩ := digitsU_split ys (10 * v + (y.toNat - 48)) (cnt + 1)
            refine ⟨x :: y :: pre, ?_, ?_⟩
            · rw [digitsU_cons, if_neg hx, if_pos hu]
              simp only [if_pos hy]
              rw [List.cons_append, List.cons_append, ← hpre]
            · intro z hz
              rcases List.mem_cons.mp hz with rfl | hz
              · exact Or.inr hu.1
              · rcases List.mem_cons.mp hz with rfl | hz
                · exact Or.inl hy
                · exact hall z hz
          · refine ⟨[], ?_, by simp⟩
            rw [digitsU_cons, if_neg hx, if_pos hu]
            simp only [if_neg hy]
            rfl
      · refine ⟨[], ?_, by simp⟩
        rw [digitsU_cons, if_neg hx, if_neg hu]
        rfl
termination_by l _ _ => l.length

theorem spec_head_digit_or_dot (s : String) (q : ℚ)
    (h : specStandardDecimal s = some q) :
    ∃ x xs, (pySign s.data).2 = x :: xs ∧ (x.isDigit = true ∨ x = '.') := by
  cases hr : (pySign s.data).2 with
  | nil =>
    exfalso
    simp only [specStandardDecimal] at h
    rw [hr, digitRun_nil] at h
    simp at h
  | cons x xs =>
    by_cases hx : x.isDigit = true
    · exact ⟨x, xs, rfl, Or.inl hx⟩
    · by_cases hdot : x = '.'
      · exact ⟨x, xs, rfl, Or.inr hdot⟩
      · exfalso
        simp only [specStandardDecimal] at h
        rw [hr] at h
        rw [show digitRun (x :: xs) 0 0 = (0, 0, x :: xs) from by
          rw [digitRun_cons, if_neg hx]] at h
        dsimp only at h
        simp only [List.head?_cons, Option.some.injEq, if_neg hdot] at h
        simp at h

theorem spec_not_special (s : String) (q : ℚ) (h : specStandardDecimal s = some q) :
    ¬((pySign s.data).2.map Char.toLower = ['i', 'n', 'f'] ∨
      (pySign s.data).2.map Char.toLower = ['i', 'n', 'f', 'i', 'n', 'i', 't', 'y'] ∨
      (pySign s.data).2.map Char.toLower = ['n', 'a', 'n']) := by
  obtain ⟨x, xs, hr, hx⟩ := spec_head_digit_or_dot s q h
  rw [hr]
  simp only [List.map_cons]
  rintro (heq | heq | heq) <;> rw [List.cons.injEq] at heq
  · exact head_not_letter x 'i' hx (by decide) (by decide) heq.1
  · exact head_not_letter x 'i' hx (by decide) (by decide) heq.1
  · exact head_not_letter x 'n' hx (by decide) (by decide) heq.1

theorem specStandardDecimal_refines (s : String) (q : ℚ)
    (h : specStandardDecimal s = some q) :
    pyFloatOfString s = some (PyNum.finite q) := by
  have hspecial := spec_not_special s q h
  push_neg at hspecial
  obtain ⟨hs1, hs2, hs3⟩ := hspecial
  simp only [specStandardDecimal] at h
  simp only [pyFloatOfString, pyFloatOfChars]
  rw [if_neg (by simp [hs1, hs2]), if_neg hs3]
  cases hr1 : (digitRun (pySign s.data).2 0 0).2.2 with
  | nil =>
    have hdu : digitsU (pySign s.data).2 0 0 = digitRun (pySign s.data).2 0 0 :=
      digitsU_eq_digitRun _ 0 0 (by rw [hr1]; intro cs h2; exact List.noConfusion h2)
    have hc0 : ¬(([] : List Char).head? = some '.') := by simp
    rw [hdu, hr1]
    rw [hr1] at h
    rw [if_neg hc0] at h ⊢
    dsimp only at h ⊢
    simp only [Nat.add_zero] at h ⊢
    split at h
    · exact Option.noConfusion h
    · rename_i hA
      rw [if_neg hA]
      simp only [eq_self_iff_true, if_true] at h ⊢
      rw [Option.some.injEq] at h
      rw [h]
  | cons c cs =>
    by_cases hc : c = '.'
    · subst hc
      have hdu : digitsU (pySign s.data).2 0 0 = digitRun (pySign s.data).2 0 0 :=
        digitsU_eq_digitRun _ 0 0 (by
          rw [hr1]
          intro cs2 h2
          rw [List.cons.injEq] at h2
          exact absurd h2.1 (by decide))
      have hcp : ('.' :: cs).head? = some '.' := rfl
      rw [hdu, hr1]
      rw [hr1] at h
      rw [if_pos hcp] at h ⊢
      simp only [List.tail_cons] at h ⊢
      cases hr2 : (digitRun cs 0 0).2.2 with
      | nil =>
        have hdu2 : digitsU cs 0 0 = digitRun cs 0 0 :=
          digitsU_eq_digitRun _ 0 0 (by rw [hr2]; intro cs2 h2; exact List.noConfusion h2)
        rw [hdu2, hr2]
        rw [hr2] at h
        split at h
        · exact Option.noConfusion h
        · rename_i hA
          rw [if_neg hA]
          simp only [eq_self_iff_true, if_true] at h ⊢
          rw [Option.some.injEq] at h
          rw [h]
      | cons d ds =>
        rw [hr2] at h
        split at h
        · exact Option.noConfusion h
        · rw [if_neg (show ¬(d :: ds = ([] : List Char)) by simp)] at h
          exact Option.noConfusion h
    · have hcn : ¬((c :: cs).head? = some '.') := by simp [hc]
      rw [hr1] at h
      rw [if_neg hcn] at h
      dsimp only at h
      split at h
      · exact Option.noConfusion h
      · rw [if_neg (show ¬(c :: cs = ([] : List Char)) by simp)] at h
        exact Option.noConfusion h

theorem accepted_chars_tail {cond : Prop} [Decidable cond] {r2 : List Char}
    {o1 o2 : Option PyNum} {v : PyNum}
    (h : (if cond then none
          else if r2 = [] then o1
          else if r2.head? = some 'e' ∨ r2.head? = some 'E' then
            if (digitsU (pySign r2.tail).2 0 0).2.1 ≠ 0 ∧
                (digitsU (pySign r2.tail).2 0 0).2.2 = [] then o2 else none
          else none) = some v) :
    ∀ x ∈ r2, pyAllowed x = true := by
  intro x hx
  have hne : r2 ≠ [] := by
    intro h0
    rw [h0] at hx
    exact absurd hx (List.not_mem_nil x)
  rw [if_neg hne] at h
  by_cases hcond : cond
  · rw [if_pos hcond] at h
    exact Option.noConfusion h
  · rw [if_neg hcond] at h
    by_cases he : (r2.head? = some 'e' ∨ r2.head? = some 'E')
    · rw [if_pos he] at h
      by_cases hd3 : ((digitsU (pySign r2.tail).2 0 0).2.1 ≠ 0 ∧
          (digitsU (pySign r2.tail).2 0 0).2.2 = [])
      · obtain ⟨-, hd3rest⟩ := hd3
        cases hr2 : r2 with
        | nil => exact absurd hr2 hne
        | cons e cs2 =>
          rw [hr2] at he hx
          rcases List.mem_cons.mp hx with rfl | hx2
          · rcases he with he1 | he1 <;>
              simp only [List.head?_cons, Option.some.injEq] at he1 <;>
              subst he1 <;> decide
          · rw [hr2] at hd3rest
            simp only [List.tail_cons] at hd3rest
            obtain ⟨pre3, hpre3, hall3⟩ := digitsU_split (pySign cs2).2 0 0
            rw [hd3rest, List.append_nil] at hpre3
            rcases pySign_shape cs2 with heq | heq | heq
            · rw [heq, hpre3] at hx2
              rcases hall3 x hx2 with hd | rfl
              · simp [pyAllowed, hd]
              · decide
            · rw [heq] at hx2
              rcases List.mem_cons.mp hx2 with rfl | hx3
              · decide
              · rw [hpre3] at hx3
                rcases hall3 x hx3 with hd | rfl
                · simp [pyAllowed, hd]
                · decide
            · rw [heq] at hx2
              rcases List.mem_cons.mp hx2 with rfl | hx3
              · decide
              · rw [hpre3] at hx3
                rcases hall3 x hx3 with hd | rfl
                · simp [pyAllowed, hd]
                · decide
      · rw [if_neg hd3] at h
        exact Option.noConfusion h
    · rw [if_neg he] at h
      exact Option.noConfusion h

theorem accepted_chars (l : List Char) (v : PyNum) (h : pyFloatOfChars l = some v) :
    ∀ x ∈ l, pyAllowed x = true := by
  suffices hrest : ∀ x ∈ (pySign l).2, pyAllowed x = true by
    intro x hx
    rcases pySign_shape l with heq | heq | heq
    · exact hrest x (heq ▸ hx)
    · rw [heq] at hx
      rcases List.mem_cons.mp hx with rfl | hx2
      · decide
      · exact hrest x hx2
    · rw [heq] at hx
      rcases List.mem_cons.mp hx with rfl | hx2
      · decide
      · exact hrest x hx2
  simp only [pyFloatOfChars] at h
  by_cases hinf : ((pySign l).2.map Char.toLower = ['i', 'n', 'f'] ∨
      (pySign l).2.map Char.toLower = ['i', 'n', 'f', 'i', 'n', 'i', 't', 'y'])
  · intro x hx
    have hxl := List.mem_map_of_mem Char.toLower hx
    rcases hinf with hc | hc <;> rw [hc] at hxl <;> simp at hxl <;>
      simp [pyAllowed] <;> tauto
  · obtain ⟨hi1, hi2⟩ := not_or.mp hinf
    by_cases hnan : (pySign l).2.map Char.toLower = ['n', 'a', 'n']
    · intro x hx
      have hxl := List.mem_map_of_mem Char.toLower hx
      rw [hnan] at hxl
      simp at hxl
      simp [pyAllowed]
      tauto
    · rw [if_neg (by simp [hi1, hi2]), if_neg hnan] at h
      intro x hx
      obtain ⟨pre1, hpre1, hall1⟩ := digitsU_split (pySign l).2 0 0
      rw [hpre1] at hx
      rcases List.mem_append.mp hx with hx1 | hx1
      · rcases hall1 x hx1 with hd | rfl
        · simp [pyAllowed, hd]
        · decide
      -- x lies in the rest after the integer digit run
      · by_cases hdot : (digitsU (pySign l).2 0 0).2.2.head? = some '.'
        · rw [if_pos hdot] at h
          cases hr1 : (digitsU (pySign l).2 0 0).2.2 with
          | nil => rw [hr1] at hdot; exact Option.noConfusion hdot
          | cons c cs =>
            rw [hr1] at hdot hx1 h
            obtain rfl : c = '.' := by simpa using hdot
            simp only [List.tail_cons] at h
            rcases List.mem_cons.mp hx1 with rfl | hx2
            · decide
            · obtain ⟨pre2, hpre2, hall2⟩ := digitsU_split cs 0 0
              rw [hpre2] at hx2
              rcases List.mem_append.mp hx2 with hx3 | hx3
              · rcases hall2 x hx3 with hd | rfl
                · simp [pyAllowed, hd]
                · decide
              · exact accepted_chars_tail h x hx3
        · rw [if_neg hdot] at h
          dsimp only at h
          exact accepted_chars_tail h x hx1

/-- C8 counterexample: "1_000" contains an underscore thousands separator
yet is accepted by the source's float parsing and used as the amount. -/
theorem c8_counterexample :
    pyFloatOfString "1_000" = some (PyNum.finite 1000) ∧
      parse_expense_details "1_000 snacks" = Except.ok ("snacks", PyNum.finite 1000) := by
  exact ⟨by decide, by decide⟩

/-- C8 (amended): the amount-token test is Python float acceptance: every
token of the spec's standard-decimal shape (optional sign, digits, optional
decimal point) is accepted with the same value, and tokens containing a
comma or a dollar sign are never accepted — but underscore digit-group
separators are accepted (e.g. "1_000" parses to 1000). -/
theorem c8_amended_float_acceptance :
    (∀ w q, specStandardDecimal w = some q → pyFloatOfString w = some (PyNum.finite q)) ∧
      (∀ w, (',' ∈ w.data ∨ '$' ∈ w.data) → pyFloatOfString w = none) ∧
      pyFloatOfString "1_000" = some (PyNum.finite 1000) := by
  refine ⟨specStandardDecimal_refines, ?_, by decide⟩
  intro w hw
  cases hf : pyFloatOfString w with
  | none => rfl
  | some v =>
    exfalso
    have hall := accepted_chars w.data v hf
    rcases hw with hc | hc
    · exact absurd (hall ',' hc) (by decide)
    · exact absurd (hall '$' hc) (by decide)

/-- C8 witness: the standard decimal token "4.50" is accepted by the code
with the value 4.50. -/
theorem c8_amended_witness :
    pyFloatOfString "4.50" = some (PyNum.finite (9 / 2)) :=
  c8_amended_float_acceptance.1 "4.50" (9 / 2) (by decide)

end SpendWise

